import Mathlib

/-!
Verification of the user-management microservice's cache-consistency core
(`src/module/users/user.service.ts`) against its specification.

The embedding models the `UsersService` methods (`findAll`, `findOne`,
`create`, `update`, `remove`) as pure state transformers over an explicit
state consisting of the Record Store (the TypeORM `user` table, including
soft-deleted rows) and the Cache (a key/value store with a default TTL).
Thrown exceptions (`UserNotFoundException`, `DuplicateEmailException`)
become `Except.error` results; the post-call state is always returned, so
frame conditions ("no mutation on failure") are directly statable.

The cache additionally carries two ghost logs (`setLog`, `delLog`)
recording, in order, every key passed to `cacheManager.set` and
`cacheManager.del`.  The logs are pure instrumentation: they are appended
exactly where the TypeScript code performs the corresponding call and are
read by no operation.
-/

namespace UserMs

/-- Sort order accepted by `PaginationDto.order` (`'asc' | 'desc'`, with
class-validator `@IsIn(['asc','desc'])` and default `'asc'`). -/
inductive SortOrder
  | asc
  | desc
deriving DecidableEq, Repr

/-- Rendering of a `SortOrder` as it appears interpolated into the
template string `users:page:...:${pagination.order}`. -/
def SortOrder.str : SortOrder → String
  | .asc => "asc"
  | .desc => "desc"

/-- The `User` entity row (table `user`): identity, name/contact fields,
bcrypt password digest, `isActive` flag, and the TypeORM-maintained
timestamps.  `deletedAt = none` means the row is not soft-deleted;
timestamps are modelled as abstract clock ticks (`Nat`). -/
structure User where
  id : Nat
  firstName : String
  middleName : Option String
  lastName : String
  email : String
  password : String
  phone : String
  isActive : Bool
  createdAt : Nat
  updatedAt : Nat
  deletedAt : Option Nat
deriving DecidableEq, Repr

/-- Fields of `CreateUserDto` (`firstName`, optional `middleName`,
`lastName`, `email`, `password`, `phone`). -/
structure CreateUserDto where
  firstName : String
  middleName : Option String
  lastName : String
  email : String
  password : String
  phone : String
deriving DecidableEq, Repr

/-- Fields of `UpdateUserDto = PartialType(CreateUserDto)`: every create
field, each optional.  `none` models a property absent from the request
body (absent properties are not assigned by `Object.assign`). -/
structure UpdateUserDto where
  firstName : Option String
  middleName : Option String
  lastName : Option String
  email : Option String
  password : Option String
  phone : Option String
deriving DecidableEq, Repr

/-- Pagination parameters after validation/transformation
(`PaginationDto`): `skip ≥ 0` default 0, `limit ≥ 1` default 20,
`order ∈ {asc, desc}` default asc.  Defaults make every field present. -/
structure PaginationDto where
  skip : Nat
  limit : Nat
  order : SortOrder
deriving DecidableEq, Repr

/-- The two service exceptions: `UserNotFoundException(id)` (404) and
`DuplicateEmailException(email)` (409). -/
inductive UserError
  | notFound (id : Nat)
  | duplicateEmail (email : String)
deriving DecidableEq, Repr

instance {ε α : Type} [DecidableEq ε] [DecidableEq α] : DecidableEq (Except ε α) := fun x y =>
  match x, y with
  | .ok a, .ok b => decidable_of_iff (a = b) (by simp)
  | .error a, .error b => decidable_of_iff (a = b) (by simp)
  | .ok _, .error _ => .isFalse (fun hc => Except.noConfusion hc)
  | .error _, .ok _ => .isFalse (fun hc => Except.noConfusion hc)

/-! ### Decimal rendering of numbers inside template strings

JavaScript renders a (non-negative integer) number inside a template
string as its decimal digit string; `natStr` reproduces that rendering.
It is written with a fuel parameter so that the kernel can evaluate it
(`natChars n n` always has enough fuel, see `natCharsAux_fuel_irrel`). -/

/-- One decimal digit character (argument is taken mod 10 by callers). -/
def digitChar (d : Nat) : Char :=
  match d with
  | 0 => '0' | 1 => '1' | 2 => '2' | 3 => '3' | 4 => '4'
  | 5 => '5' | 6 => '6' | 7 => '7' | 8 => '8' | _ => '9'

/-- Fuelled digit-string computation: most-significant digit first. -/
def natCharsAux : Nat → Nat → List Char
  | 0, _ => []
  | fuel+1, n =>
    if n < 10 then [digitChar n]
    else natCharsAux fuel (n / 10) ++ [digitChar (n % 10)]

/-- Decimal digit list of `n` (fuel `n + 1` always suffices). -/
def natChars (n : Nat) : List Char := natCharsAux (n + 1) n

/-- Decimal string of `n`, as a JS template literal renders a number. -/
def natStr (n : Nat) : String := ⟨natChars n⟩

/-! ### Record Store

The `user` table as seen through the injected TypeORM repository.  All
read paths (`find`, `findOne`, `findOneBy`) automatically exclude
soft-deleted rows because the entity has a delete-date column. -/

/-- Row visibility: not soft-deleted. -/
def isLive (u : User) : Bool := u.deletedAt.isNone

/-- The Record Store: every row ever inserted (soft-deleted included),
the next primary key to assign, and a logical clock producing the
`createdAt` / `updatedAt` / `deletedAt` timestamps. -/
structure Store where
  rows : List User
  nextId : Nat
  clock : Nat
deriving DecidableEq, Repr

/-- Repository `findOneBy({ id })`: first non-deleted row with this id. -/
def findOneBy (st : Store) (id : Nat) : Option User :=
  st.rows.find? (fun u => u.id == id && isLive u)

/-- Repository `findOne({ where: { email } })`: first non-deleted row
with this email (used only for the uniqueness checks). -/
def findByEmail (st : Store) (e : String) : Option User :=
  st.rows.find? (fun u => u.email == e && isLive u)

/-- Insert `u` into a list sorted by the given order, keyed on `id`. -/
def insertSorted (o : SortOrder) (u : User) : List User → List User
  | [] => [u]
  | v :: vs =>
    match o with
    | .asc => if u.id ≤ v.id then u :: v :: vs else v :: insertSorted o u vs
    | .desc => if v.id ≤ u.id then u :: v :: vs else v :: insertSorted o u vs

/-- Sort rows by `id` in the given order (insertion sort). -/
def sortById (o : SortOrder) : List User → List User
  | [] => []
  | v :: vs => insertSorted o v (sortById o vs)

/-- Repository `find({ skip, take, order: { id } })`: non-deleted rows
ordered by id, skipping `skip` and taking `limit`. -/
def findPage (st : Store) (skip limit : Nat) (o : SortOrder) : List User :=
  (((st.rows.filter isLive) |> sortById o).drop skip).take limit

/-- Modelled from the spec: the `User` entity file (`user.entity.ts`) is
not under `src/`; per the spec the raw password is "stored only as a
one-way hashed digest, never the raw value" (bcrypt hashing in the
entity's insert hook).  The digest is modelled as a tagged injection,
which is one-way in the sense needed here: it never equals its input. -/
def hashPassword (raw : String) : String := "$2b$10$" ++ raw

/-- Repository `save` on a fresh entity built from `CreateUserDto`
(`create` then `save`): assigns the next id and the timestamps, stores
the hashed password digest, defaults `isActive` to true, and appends the
row.  Returns the saved entity together with the new store. -/
def insertRow (st : Store) (dto : CreateUserDto) : User × Store :=
  let u : User :=
    { id := st.nextId
      firstName := dto.firstName
      middleName := dto.middleName
      lastName := dto.lastName
      email := dto.email
      password := hashPassword dto.password
      phone := dto.phone
      isActive := true
      createdAt := st.clock
      updatedAt := st.clock
      deletedAt := none }
  (u, { rows := st.rows ++ [u], nextId := st.nextId + 1, clock := st.clock + 1 })

/-- Repository `save` on a loaded-and-mutated entity: persists `u` over
the row with the same primary key, refreshing `updatedAt`.  Returns the
saved entity together with the new store. -/
def saveRow (st : Store) (u : User) : User × Store :=
  let u' : User := { u with updatedAt := st.clock }
  (u',
   { st with
       rows := st.rows.map (fun r => if r.id == u.id then u' else r)
       clock := st.clock + 1 })

/-- Repository `softDelete(id)`: sets the delete timestamp on the
non-deleted row with this id (if any). -/
def softDeleteRow (st : Store) (id : Nat) : Store :=
  { st with
      rows := st.rows.map
        (fun r => if r.id == id && isLive r then { r with deletedAt := some st.clock } else r)
      clock := st.clock + 1 }

/-- The store's primary-key constraint: row ids are pairwise distinct
(§3 of the spec: "`id`: integer, assigned by the store on creation,
immutable, unique"). -/
def StoreWf (st : Store) : Prop := (st.rows.map User.id).Nodup

instance (st : Store) : Decidable (StoreWf st) := by
  unfold StoreWf; infer_instance

/-! ### Cache

The cache-manager instance: string keys to cached values (a single user
for point lookups, a user page for listings), each entry recorded with
the TTL it was stored under.  `set` without an explicit ttl uses the
configured default (`CACHE_TTL`, registered at module setup). -/

/-- A cached value: a point lookup (`get<User>`) or a page listing
(`get<User[]>`). -/
inductive CacheVal
  | user (u : User)
  | page (us : List User)
deriving DecidableEq, Repr

/-- The cache: entries `(key, value, ttl)`, the configured default TTL,
and the ghost effect logs (keys passed to `set` / `del`, in order). -/
structure Cache where
  entries : List (String × CacheVal × Nat)
  defaultTtl : Nat
  setLog : List String
  delLog : List String
deriving DecidableEq, Repr

/-- Raw lookup of a key's entry (value and recorded TTL). -/
def cacheLookup (c : Cache) (k : String) : Option (CacheVal × Nat) :=
  (c.entries.find? (fun e => e.1 == k)).map (fun e => e.2)

/-- Cache `get<User>(key)`: the hit branch of `findOne`.  Point keys
(`user:<id>`) and page keys (`users:page:...`) are distinct strings, so
under the service's own usage the stored value at a point key is always
a `CacheVal.user`. -/
def cacheGetUser (c : Cache) (k : String) : Option User :=
  match cacheLookup c k with
  | some (.user u, _) => some u
  | _ => none

/-- Cache `get<User[]>(key)`: the hit branch of `findAll`. -/
def cacheGetPage (c : Cache) (k : String) : Option (List User) :=
  match cacheLookup c k with
  | some (.page us, _) => some us
  | _ => none

/-- Cache `set(key, value)`: stores under the configured default TTL,
replacing any previous binding, and logs the key. -/
def cacheSet (c : Cache) (k : String) (v : CacheVal) : Cache :=
  { c with
      entries := (k, v, c.defaultTtl) :: c.entries.filter (fun e => !(e.1 == k))
      setLog := c.setLog ++ [k] }

/-- Cache `del(key)`: removes the key's binding and logs the key. -/
def cacheDel (c : Cache) (k : String) : Cache :=
  { c with
      entries := c.entries.filter (fun e => !(e.1 == k))
      delLog := c.delLog ++ [k] }

/-! ### The Record Service (`UsersService`) -/

/-- Combined state the service mediates: the Record Store and the Cache. -/
structure SState where
  store : Store
  cache : Cache
deriving DecidableEq, Repr

/-- Point-lookup cache key: the template string `user:${id}`. -/
def userKey (id : Nat) : String := "user:" ++ natStr id

/-- Page-listing cache key: the template string
`users:page:${pagination.skip}:${pagination.limit}:${pagination.order}`. -/
def pageKey (p : PaginationDto) : String :=
  "users:page:" ++ natStr p.skip ++ ":" ++ natStr p.limit ++ ":" ++ p.order.str

/-- `UsersService.findAll(pagination)`: compute the page key; on a cache
hit return the cached page verbatim; otherwise query the repository
page, cache it under the page key (default TTL), and return it. -/
def findAll (s : SState) (p : PaginationDto) : List User × SState :=
  let cacheKey := pageKey p
  match cacheGetPage s.cache cacheKey with
  | some cached => (cached, s)
  | none =>
    let users := findPage s.store p.skip p.limit p.order
    (users, { s with cache := cacheSet s.cache cacheKey (.page users) })

/-- `UsersService.findOne(id)`: on a cache hit return the cached user;
otherwise load via `findOneBy`; absent means
`UserNotFoundException(id)`; otherwise cache and return the user. -/
def findOne (s : SState) (id : Nat) : Except UserError User × SState :=
  let cacheKey := userKey id
  match cacheGetUser s.cache cacheKey with
  | some cached => (.ok cached, s)
  | none =>
    match findOneBy s.store id with
    | none => (.error (.notFound id), s)
    | some u => (.ok u, { s with cache := cacheSet s.cache cacheKey (.user u) })

/-- `UsersService.create(dto)`: if a non-deleted row already holds
`dto.email`, throw `DuplicateEmailException` (no store or cache
mutation); otherwise insert and return the saved entity.  The trailing
`clearListCache()` call is a documented no-op (cache-manager offers no
pattern delete), so it touches no cache key. -/
def create (s : SState) (dto : CreateUserDto) : Except UserError User × SState :=
  match findByEmail s.store dto.email with
  | some _ => (.error (.duplicateEmail dto.email), s)
  | none =>
    (.ok (insertRow s.store dto).1, { s with store := (insertRow s.store dto).2 })

/-- `Object.assign(user, dto)`: fields present in the dto overwrite the
loaded entity's fields; absent fields are untouched. -/
def applyDto (u : User) (dto : UpdateUserDto) : User :=
  { u with
      firstName := dto.firstName.getD u.firstName
      middleName := match dto.middleName with
        | some m => some m
        | none => u.middleName
      lastName := dto.lastName.getD u.lastName
      email := dto.email.getD u.email
      password := dto.password.getD u.password
      phone := dto.phone.getD u.phone }

/-- Tail of `UsersService.update` after the checks passed: merge the dto
into the loaded entity, `save` it, delete the point key `user:${id}`,
run the no-op `clearListCache()`, and return the saved entity. -/
def applySave (s : SState) (id : Nat) (user : User) (dto : UpdateUserDto) :
    Except UserError User × SState :=
  let merged := applyDto user dto
  (.ok (saveRow s.store merged).1,
   { store := (saveRow s.store merged).2, cache := cacheDel s.cache (userKey id) })

/-- `UsersService.update(id, dto)`: load the row (absent means
`UserNotFoundException`); then, only when `dto.email` is truthy (present
and non-empty) and differs from the current email, run the uniqueness
check `findOne({ where: { email } })` and throw
`DuplicateEmailException` on a hit; otherwise merge, save, and evict the
point key. -/
def update (s : SState) (id : Nat) (dto : UpdateUserDto) :
    Except UserError User × SState :=
  match findOneBy s.store id with
  | none => (.error (.notFound id), s)
  | some user =>
    match dto.email with
    | some e =>
      if e != "" && e != user.email then
        match findByEmail s.store e with
        | some _ => (.error (.duplicateEmail e), s)
        | none => applySave s id user dto
      else applySave s id user dto
    | none => applySave s id user dto

/-- `UsersService.remove(id)`: load the row (absent means
`UserNotFoundException`); then soft-delete it, delete the point key
`user:${id}`, and run the no-op `clearListCache()`. -/
def remove (s : SState) (id : Nat) : Except UserError Unit × SState :=
  match findOneBy s.store id with
  | none => (.error (.notFound id), s)
  | some _ =>
    let st := softDeleteRow s.store id
    (.ok (), { store := st, cache := cacheDel s.cache (userKey id) })

/-- The shape of a record as serialized to callers, without the password
digest. -/
structure PublicUser where
  id : Nat
  firstName : String
  middleName : Option String
  lastName : String
  email : String
  phone : String
  isActive : Bool
  createdAt : Nat
  updatedAt : Nat
deriving DecidableEq, Repr

/-- Modelled from the spec: the `User` entity file (`user.entity.ts`) is
not under `src/`; per the spec a record is returned to callers "never
including the password digest", so serialization drops the `password`
column and keeps every other exposed field. -/
def serializeUser (u : User) : PublicUser :=
  { id := u.id
    firstName := u.firstName
    middleName := u.middleName
    lastName := u.lastName
    email := u.email
    phone := u.phone
    isActive := u.isActive
    createdAt := u.createdAt
    updatedAt := u.updatedAt }

/-! ### Properties of the decimal rendering -/

/-- The fuel argument of `natCharsAux` is irrelevant once it exceeds the
rendered number. -/
theorem natCharsAux_fuel_irrel (n : Nat) :
    ∀ f g, n < f → n < g → natCharsAux f n = natCharsAux g n := by
  induction n using Nat.strong_induction_on with
  | _ n ih =>
    intro f g hf hg
    match f, g with
    | f + 1, g + 1 =>
      simp only [natCharsAux]
      by_cases h : n < 10
      · simp [h]
      · simp only [if_neg h]
        have hd : n / 10 < n := Nat.div_lt_self (by omega) (by omega)
        rw [ih (n / 10) hd f (g + 1) (by omega) (by omega),
            ih (n / 10) hd (g + 1) g (by omega) (by omega)]

/-- Unfolding equation for `natChars` with the fuel hidden. -/
theorem natChars_eq (n : Nat) :
    natChars n =
      if n < 10 then [digitChar n] else natChars (n / 10) ++ [digitChar (n % 10)] := by
  unfold natChars
  simp only [natCharsAux]
  by_cases h : n < 10
  · simp [h]
  · have hd : n / 10 < n := Nat.div_lt_self (by omega) (by omega)
    simp only [if_neg h]
    rw [natCharsAux_fuel_irrel (n / 10) n (n / 10 + 1) (by omega) (by omega)]
    simp only [natCharsAux]

/-- Numeric value of a digit character. -/
def charVal (c : Char) : Nat := c.toNat - 48

/-- Value of a most-significant-first digit string. -/
def ofDigits (cs : List Char) : Nat := cs.foldl (fun a c => 10 * a + charVal c) 0

theorem ofDigits_append_digit (xs : List Char) (c : Char) :
    ofDigits (xs ++ [c]) = 10 * ofDigits xs + charVal c := by
  simp [ofDigits, List.foldl_append]

theorem charVal_digitChar (d : Nat) (h : d < 10) : charVal (digitChar d) = d := by
  interval_cases d <;> decide

/-- Evaluating the rendered digits recovers the number: the rendering is
injective. -/
theorem ofDigits_natChars (n : Nat) : ofDigits (natChars n) = n := by
  induction n using Nat.strong_induction_on with
  | _ n ih =>
    rw [natChars_eq]
    by_cases h : n < 10
    · simp [h, ofDigits, charVal_digitChar n h]
    · have hd : n / 10 < n := Nat.div_lt_self (by omega) (by omega)
      simp only [if_neg h]
      rw [ofDigits_append_digit, ih (n / 10) hd,
          charVal_digitChar (n % 10) (Nat.mod_lt n (by omega))]
      omega

theorem natChars_inj {a b : Nat} (h : natChars a = natChars b) : a = b := by
  have := congrArg ofDigits h
  rwa [ofDigits_natChars, ofDigits_natChars] at this

theorem natStr_inj {a b : Nat} (h : natStr a = natStr b) : a = b :=
  natChars_inj (congrArg String.data h)

/-- Every rendered character is a decimal digit. -/
theorem natChars_digits (n : Nat) :
    ∀ c ∈ natChars n, c ∈ (['0', '1', '2', '3', '4', '5', '6', '7', '8', '9'] : List Char) := by
  induction n using Nat.strong_induction_on with
  | _ n ih =>
    rw [natChars_eq]
    by_cases h : n < 10
    · simp only [if_pos h, List.mem_singleton]
      rintro c rfl
      unfold digitChar
      split <;> decide
    · have hd : n / 10 < n := Nat.div_lt_self (by omega) (by omega)
      simp only [if_neg h, List.mem_append, List.mem_singleton]
      rintro c (hc | rfl)
      · exact ih (n / 10) hd c hc
      · unfold digitChar
        split <;> decide

theorem colon_not_mem_natChars (n : Nat) : ':' ∉ natChars n := by
  intro h
  have := natChars_digits n ':' h
  simp at this

/-- Splitting a colon-separated concatenation whose first component is
colon-free is unambiguous. -/
theorem append_colon_inj :
    ∀ (as bs xs ys : List Char), ':' ∉ as → ':' ∉ bs →
      as ++ ':' :: xs = bs ++ ':' :: ys → as = bs ∧ xs = ys := by
  intro as
  induction as with
  | nil =>
    intro bs xs ys _ hb h
    cases bs with
    | nil => simpa using h
    | cons b bs' =>
      simp only [List.nil_append, List.cons_append, List.cons.injEq] at h
      exact absurd (h.1 ▸ List.mem_cons_self b bs') hb
  | cons a as' ih =>
    intro bs xs ys ha hb h
    cases bs with
    | nil =>
      simp only [List.cons_append, List.nil_append, List.cons.injEq] at h
      exact absurd (h.1 ▸ List.mem_cons_self a as') ha
    | cons b bs' =>
      simp only [List.cons_append, List.cons.injEq] at h
      obtain ⟨rfl, h2⟩ := h
      have := ih bs' xs ys (fun hm => ha (List.mem_cons_of_mem _ hm))
        (fun hm => hb (List.mem_cons_of_mem _ hm)) h2
      exact ⟨by rw [this.1], this.2⟩

theorem sortOrderStr_data_colon_free (o : SortOrder) : ':' ∉ (SortOrder.str o).data := by
  cases o <;> decide

/-- Character data of a page key, in colon-separated shape. -/
theorem pageKey_data (p : PaginationDto) :
    (pageKey p).data =
      (['u', 's', 'e', 'r', 's', ':', 'p', 'a', 'g', 'e', ':'] : List Char) ++
        (natChars p.skip ++ ':' :: (natChars p.limit ++ ':' :: (SortOrder.str p.order).data)) := by
  have h : (pageKey p).data =
      (((((['u', 's', 'e', 'r', 's', ':', 'p', 'a', 'g', 'e', ':'] : List Char) ++
        natChars p.skip) ++ [':']) ++ natChars p.limit) ++ [':']) ++
        (SortOrder.str p.order).data := rfl
  rw [h]
  simp [List.append_assoc]

/-- The page-key function is injective on `(skip, limit, order)`. -/
theorem pageKey_inj {p q : PaginationDto} (h : pageKey p = pageKey q) : p = q := by
  have hdata := congrArg String.data h
  rw [pageKey_data, pageKey_data] at hdata
  have h1 := List.append_cancel_left hdata
  have h2 := append_colon_inj _ _ _ _ (colon_not_mem_natChars p.skip)
    (colon_not_mem_natChars q.skip) h1
  have h3 := append_colon_inj _ _ _ _ (colon_not_mem_natChars p.limit)
    (colon_not_mem_natChars q.limit) h2.2
  have hskip : p.skip = q.skip := natChars_inj h2.1
  have hlimit : p.limit = q.limit := natChars_inj h3.1
  have horder : p.order = q.order := by
    have h4 := h3.2
    cases hp : p.order <;> cases hq : q.order <;> rw [hp, hq] at h4 <;>
      first
        | rfl
        | (exfalso; revert h4; decide)
  cases p; cases q
  simp_all

/-- A point-lookup key is never a page-listing key. -/
theorem userKey_ne_pageKey (id : Nat) (p : PaginationDto) : userKey id ≠ pageKey p := by
  intro h
  have hdata := congrArg String.data h
  have hu : (userKey id).data =
      (['u', 's', 'e', 'r'] : List Char) ++ ':' :: natChars id := rfl
  have hp : (pageKey p).data =
      (['u', 's', 'e', 'r'] : List Char) ++ 's' :: ((([':', 'p', 'a', 'g', 'e', ':'] : List Char)) ++
        (natChars p.skip ++ ':' :: (natChars p.limit ++ ':' :: (SortOrder.str p.order).data))) := by
    rw [pageKey_data]; rfl
  rw [hu, hp] at hdata
  have h2 := List.append_cancel_left hdata
  injection h2 with h3 _
  exact absurd h3 (by decide)

/-! ### Store and cache helper lemmas -/

theorem findOneBy_some {st : Store} {id : Nat} {u : User}
    (h : findOneBy st id = some u) :
    u.id = id ∧ isLive u = true ∧ u ∈ st.rows := by
  have hp := List.find?_some h
  have hm := List.mem_of_find?_eq_some h
  simp only [Bool.and_eq_true, beq_iff_eq] at hp
  exact ⟨hp.1, hp.2, hm⟩

theorem findByEmail_some {st : Store} {e : String} {u : User}
    (h : findByEmail st e = some u) :
    u.email = e ∧ isLive u = true ∧ u ∈ st.rows := by
  have hp := List.find?_some h
  have hm := List.mem_of_find?_eq_some h
  simp only [Bool.and_eq_true, beq_iff_eq] at hp
  exact ⟨hp.1, hp.2, hm⟩

theorem findByEmail_isSome_of_mem {st : Store} {e : String} {v : User}
    (hv : v ∈ st.rows) (he : v.email = e) (hl : v.deletedAt = none) :
    (findByEmail st e).isSome := by
  rw [findByEmail, List.find?_isSome]
  exact ⟨v, hv, by simp [he, isLive, hl]⟩

theorem cacheLookup_cacheDel_self (c : Cache) (k : String) :
    cacheLookup (cacheDel c k) k = none := by
  simp only [cacheLookup, cacheDel, Option.map_eq_none', List.find?_eq_none]
  intro e he
  have := (List.mem_filter.mp he).2
  simpa using this

theorem cacheGetUser_cacheDel_self (c : Cache) (k : String) :
    cacheGetUser (cacheDel c k) k = none := by
  simp [cacheGetUser, cacheLookup_cacheDel_self]

theorem cacheLookup_cacheSet_self (c : Cache) (k : String) (v : CacheVal) :
    cacheLookup (cacheSet c k v) k = some (v, c.defaultTtl) := by
  simp [cacheLookup, cacheSet, List.find?_cons_of_pos]

/-- Filtering out elements the search predicate rejects does not change
the result of `find?`. -/
theorem find?_filter_of_imp {α} (l : List α) (p f : α → Bool)
    (h : ∀ a, p a = true → f a = true) : (l.filter f).find? p = l.find? p := by
  induction l with
  | nil => rfl
  | cons a l ih =>
    by_cases hp : p a = true
    · rw [List.filter_cons, if_pos (h a hp)]
      rw [List.find?_cons_of_pos _ hp, List.find?_cons_of_pos _ hp]
    · by_cases hf : f a = true
      · rw [List.filter_cons, if_pos hf,
          List.find?_cons_of_neg _ (by simpa using hp), List.find?_cons_of_neg _ (by simpa using hp)]
        exact ih
      · rw [List.filter_cons, if_neg hf, List.find?_cons_of_neg _ (by simpa using hp)]
        exact ih

theorem cacheLookup_cacheSet_ne (c : Cache) {k k' : String} (v : CacheVal) (h : ¬ k' = k) :
    cacheLookup (cacheSet c k v) k' = cacheLookup c k' := by
  simp only [cacheLookup, cacheSet]
  rw [List.find?_cons_of_neg _ (by simp only [beq_iff_eq]; exact fun hh => h hh.symm),
    find?_filter_of_imp _ _ _ (fun e he => by
      simp only [beq_iff_eq] at he
      simp [he, h])]

theorem cacheLookup_cacheDel_ne (c : Cache) {k k' : String} (h : ¬ k' = k) :
    cacheLookup (cacheDel c k) k' = cacheLookup c k' := by
  simp only [cacheLookup, cacheDel]
  rw [find?_filter_of_imp _ _ _ (fun e he => by
    simp only [beq_iff_eq] at he
    simp [he, h])]

/-- Persisting an updated row over the unique row with its primary key:
the subsequent point lookup finds exactly the persisted row. -/
theorem find?_map_update (l : List User) (id : Nat) (w v v' : User)
    (hnd : (l.map User.id).Nodup)
    (hfind : l.find? (fun r => r.id == id && isLive r) = some w)
    (hid : v.id = id) (hid' : v'.id = id) (hlive : isLive v' = true) :
    (l.map (fun r => if r.id == v.id then v' else r)).find?
      (fun r => r.id == id && isLive r) = some v' := by
  induction l with
  | nil => simp at hfind
  | cons r tl ih =>
    rw [List.map_cons, List.nodup_cons] at hnd
    by_cases hp : (r.id == id && isLive r) = true
    · have hpr : r.id = id ∧ isLive r = true := by simpa using hp
      rw [List.map_cons]
      have hhead : (if r.id == v.id then v' else r) = v' := by
        rw [if_pos (by simp [hpr.1, hid])]
      rw [hhead]
      exact List.find?_cons_of_pos _ (by simp [hid', hlive])
    · rw [List.find?_cons_of_neg _ (by simpa using hp)] at hfind
      by_cases hr : r.id = id
      · exfalso
        have hw := List.find?_some hfind
        have hwm := List.mem_of_find?_eq_some hfind
        simp only [Bool.and_eq_true, beq_iff_eq] at hw
        exact hnd.1 (by
          rw [List.mem_map]
          exact ⟨w, hwm, by rw [hw.1, hr]⟩)
      · rw [List.map_cons]
        have hhead : (if r.id == v.id then v' else r) = r := by
          rw [if_neg (by simp [hid]; exact fun hc => hr hc)]
        rw [hhead, List.find?_cons_of_neg _ (by simpa using hp)]
        exact ih hnd.2 hfind

/-- After a soft delete of `id`, no live row with that id remains. -/
theorem findOneBy_softDeleteRow (st : Store) (id : Nat) :
    findOneBy (softDeleteRow st id) id = none := by
  simp only [findOneBy, softDeleteRow, List.find?_eq_none]
  intro fr hfr
  obtain ⟨r, _, rfl⟩ := List.mem_map.mp hfr
  by_cases hc : (r.id == id && isLive r) = true
  · rw [if_pos hc]
    simp [isLive]
  · rw [if_neg hc]
    exact hc

/-- Applying `Object.assign` does not change the row identity or its
soft-delete marker. -/
theorem applyDto_id (u : User) (dto : UpdateUserDto) : (applyDto u dto).id = u.id := rfl

theorem applyDto_deletedAt (u : User) (dto : UpdateUserDto) :
    (applyDto u dto).deletedAt = u.deletedAt := rfl

/-! ### Service-level helper lemmas -/

/-- Unfolded form of `update` once the row has been loaded. -/
theorem update_eq (s : SState) (id : Nat) (dto : UpdateUserDto) (user : User)
    (hfind : findOneBy s.store id = some user) :
    update s id dto =
      match dto.email with
      | some e =>
        if e != "" && e != user.email then
          match findByEmail s.store e with
          | some _ => (.error (.duplicateEmail e), s)
          | none => applySave s id user dto
        else applySave s id user dto
      | none => applySave s id user dto := by
  unfold update
  rw [hfind]

/-- Every call to `update` either reaches the merge-and-save tail on the
loaded row, or throws with the state untouched. -/
theorem update_cases (s : SState) (id : Nat) (dto : UpdateUserDto) :
    (∃ user, findOneBy s.store id = some user ∧
      update s id dto = applySave s id user dto) ∨
    (∃ err, update s id dto = (.error err, s)) := by
  cases hf : findOneBy s.store id with
  | none =>
    refine .inr ⟨.notFound id, ?_⟩
    simp only [update, hf]
  | some user =>
    cases hde : dto.email with
    | none =>
      refine .inl ⟨user, rfl, ?_⟩
      simp only [update, hf, hde]
    | some e =>
      by_cases hcond : (e != "" && e != user.email) = true
      · cases hfe : findByEmail s.store e with
        | none =>
          refine .inl ⟨user, rfl, ?_⟩
          simp only [update, hf, hde, if_pos hcond, hfe]
        | some w =>
          refine .inr ⟨.duplicateEmail e, ?_⟩
          simp only [update, hf, hde, if_pos hcond, hfe]
      · refine .inl ⟨user, rfl, ?_⟩
        simp only [update, hf, hde, if_neg hcond]

theorem applySave_fst (s : SState) (id : Nat) (user : User) (dto : UpdateUserDto) :
    (applySave s id user dto).1 = .ok (saveRow s.store (applyDto user dto)).1 := rfl

/-- Point-lookup keys of distinct ids are distinct. -/
theorem userKey_inj {a b : Nat} (h : userKey a = userKey b) : a = b := by
  have hdata := congrArg String.data h
  have ha : (userKey a).data = (['u', 's', 'e', 'r', ':'] : List Char) ++ natChars a := rfl
  have hb : (userKey b).data = (['u', 's', 'e', 'r', ':'] : List Char) ++ natChars b := rfl
  rw [ha, hb] at hdata
  exact natChars_inj (List.append_cancel_left hdata)

theorem cacheGetUser_cacheSet_ne (c : Cache) {k k' : String} (v : CacheVal) (h : ¬ k' = k) :
    cacheGetUser (cacheSet c k v) k' = cacheGetUser c k' := by
  unfold cacheGetUser
  rw [cacheLookup_cacheSet_ne c v h]

theorem cacheGetUser_cacheDel_ne (c : Cache) {k k' : String} (h : ¬ k' = k) :
    cacheGetUser (cacheDel c k) k' = cacheGetUser c k' := by
  unfold cacheGetUser
  rw [cacheLookup_cacheDel_ne c h]

theorem find?_none_of_append {α} {l m : List α} {p : α → Bool}
    (h : (l ++ m).find? p = none) : l.find? p = none := by
  rw [List.find?_eq_none] at h ⊢
  exact fun x hx => h x (List.mem_append_left m hx)

theorem find?_none_of_map_none {α} (l : List α) (f : α → α) (p : α → Bool)
    (h : ∀ r ∈ l, p (f r) = false → p r = false)
    (hm : (l.map f).find? p = none) : l.find? p = none := by
  rw [List.find?_eq_none] at hm ⊢
  intro x hx
  have hfx := hm (f x) (List.mem_map_of_mem f hx)
  simp only [Bool.not_eq_true] at hfx ⊢
  exact h x hx hfx

/-! ### Point-cache coherence

In any state produced by the service itself, a point-cache entry exists
only for an id whose non-deleted row exists: `findOne` populates
`user:<id>` only after a successful load, and `update` / `remove` evict
it.  The lemmas below show every operation preserves this invariant, so
assuming it of a state quantifies exactly over the states the service
can be in. -/

/-- No stale point entry: ids without a live row have no point-cache
entry. -/
def PointCoherent (s : SState) : Prop :=
  ∀ id : Nat, findOneBy s.store id = none → cacheGetUser s.cache (userKey id) = none

theorem pointCoherent_findAll (s : SState) (p : PaginationDto)
    (h : PointCoherent s) : PointCoherent (findAll s p).2 := by
  cases hc : cacheGetPage s.cache (pageKey p) with
  | some us =>
    have he : (findAll s p).2 = s := by simp only [findAll, hc]
    rw [he]
    exact h
  | none =>
    intro id hnone
    have hst : (findAll s p).2.store = s.store := by simp only [findAll, hc]
    have hca : (findAll s p).2.cache =
        cacheSet s.cache (pageKey p) (.page (findPage s.store p.skip p.limit p.order)) := by
      simp only [findAll, hc]
    rw [hst] at hnone
    rw [hca, cacheGetUser_cacheSet_ne _ _ (userKey_ne_pageKey id p)]
    exact h id hnone

theorem pointCoherent_findOne (s : SState) (i : Nat)
    (h : PointCoherent s) : PointCoherent (findOne s i).2 := by
  cases hc : cacheGetUser s.cache (userKey i) with
  | some u =>
    have he : (findOne s i).2 = s := by simp only [findOne, hc]
    rw [he]
    exact h
  | none =>
    cases hf : findOneBy s.store i with
    | none =>
      have he : (findOne s i).2 = s := by simp only [findOne, hc, hf]
      rw [he]
      exact h
    | some u =>
      intro id hnone
      have hst : (findOne s i).2.store = s.store := by simp only [findOne, hc, hf]
      have hca : (findOne s i).2.cache = cacheSet s.cache (userKey i) (.user u) := by
        simp only [findOne, hc, hf]
      rw [hst] at hnone
      have hne : ¬ userKey id = userKey i := by
        intro hk
        rw [userKey_inj hk] at hnone
        rw [hnone] at hf
        exact Option.noConfusion hf
      rw [hca, cacheGetUser_cacheSet_ne _ _ hne]
      exact h id hnone

theorem pointCoherent_create (s : SState) (dto : CreateUserDto)
    (h : PointCoherent s) : PointCoherent (create s dto).2 := by
  cases hc : findByEmail s.store dto.email with
  | some w =>
    have he : (create s dto).2 = s := by simp only [create, hc]
    rw [he]
    exact h
  | none =>
    intro id hnone
    have hst : (create s dto).2.store = (insertRow s.store dto).2 := by
      simp only [create, hc]
    have hca : (create s dto).2.cache = s.cache := by simp only [create, hc]
    rw [hst] at hnone
    rw [hca]
    exact h id (find?_none_of_append hnone)

theorem pointCoherent_update (s : SState) (i : Nat) (dto : UpdateUserDto)
    (h : PointCoherent s) : PointCoherent (update s i dto).2 := by
  rcases update_cases s i dto with ⟨user, hf, heq⟩ | ⟨err, heq⟩
  · intro id hnone
    have hst : (update s i dto).2.store = (saveRow s.store (applyDto user dto)).2 := by
      rw [heq]
      rfl
    have hca : (update s i dto).2.cache = cacheDel s.cache (userKey i) := by
      rw [heq]
      rfl
    rw [hst] at hnone
    rw [hca]
    by_cases hid : id = i
    · subst hid
      exact cacheGetUser_cacheDel_self _ _
    · rw [cacheGetUser_cacheDel_ne _ (fun hk => hid (userKey_inj hk))]
      refine h id ?_
      refine find?_none_of_map_none _ _ _ ?_ hnone
      intro r _ hpr
      by_cases hri : (r.id == (applyDto user dto).id) = true
      · simp only [beq_iff_eq, applyDto_id] at hri
        have hui : user.id = i := (findOneBy_some hf).1
        rw [Bool.and_eq_false_iff]
        left
        rw [beq_eq_false_iff_ne]
        rw [hri, hui]
        exact fun hcontra => hid hcontra.symm
      · rw [if_neg (by simpa using hri)] at hpr
        exact hpr
  · rw [heq]
    exact h

theorem pointCoherent_remove (s : SState) (i : Nat)
    (h : PointCoherent s) : PointCoherent (remove s i).2 := by
  cases hf : findOneBy s.store i with
  | none =>
    have he : (remove s i).2 = s := by simp only [remove, hf]
    rw [he]
    exact h
  | some w =>
    intro id hnone
    have hst : (remove s i).2.store = softDeleteRow s.store i := by simp only [remove, hf]
    have hca : (remove s i).2.cache = cacheDel s.cache (userKey i) := by simp only [remove, hf]
    rw [hst] at hnone
    rw [hca]
    by_cases hid : id = i
    · subst hid
      exact cacheGetUser_cacheDel_self _ _
    · rw [cacheGetUser_cacheDel_ne _ (fun hk => hid (userKey_inj hk))]
      refine h id ?_
      refine find?_none_of_map_none _ _ _ ?_ hnone
      intro r _ hpr
      by_cases hri : (r.id == i && isLive r) = true
      · simp only [Bool.and_eq_true, beq_iff_eq] at hri
        rw [Bool.and_eq_false_iff]
        left
        rw [beq_eq_false_iff_ne]
        rw [hri.1]
        exact fun hcontra => hid hcontra.symm
      · rw [if_neg hri] at hpr
        exact hpr

/-! ### Concrete fixtures used by witnesses and counterexamples -/

/-- A cache in its initial state, with the default `CACHE_TTL` of
300000 ms (5 minutes). -/
def emptyCache : Cache := { entries := [], defaultTtl := 300000, setLog := [], delLog := [] }

/-- A concrete stored user row. -/
def john : User :=
  { id := 1, firstName := "John", middleName := none, lastName := "Doe",
    email := "john@example.com", password := hashPassword "password123",
    phone := "+1234567890", isActive := true, createdAt := 0, updatedAt := 0,
    deletedAt := none }

/-- A second concrete row, holding a different email. -/
def jane : User :=
  { id := 2, firstName := "Jane", middleName := some "M", lastName := "Smith",
    email := "jane@example.com", password := hashPassword "password456",
    phone := "+1234567891", isActive := true, createdAt := 0, updatedAt := 0,
    deletedAt := none }

/-- A concrete row whose stored email is the empty string. -/
def blankEmailUser : User :=
  { id := 3, firstName := "Blank", middleName := none, lastName := "Mail",
    email := "", password := hashPassword "password789",
    phone := "+1234567892", isActive := true, createdAt := 0, updatedAt := 0,
    deletedAt := none }

/-- State with the single user `john`. -/
def s1 : SState :=
  { store := { rows := [john], nextId := 2, clock := 1 }, cache := emptyCache }

/-- State with `john` and `jane`. -/
def s2 : SState :=
  { store := { rows := [john, jane], nextId := 3, clock := 2 }, cache := emptyCache }

/-- State with `john` and a row whose email is the empty string. -/
def s3 : SState :=
  { store := { rows := [john, blankEmailUser], nextId := 4, clock := 2 }, cache := emptyCache }

/-- Update dto setting only `firstName` to `"A"`. -/
def dtoA : UpdateUserDto :=
  { firstName := some "A", middleName := none, lastName := none,
    email := none, password := none, phone := none }

/-- The row `john` after `update(1, {firstName: "A"})`. -/
def johnA : User := { john with firstName := "A", updatedAt := 1 }

/-- The state after `update s1 1 dtoA`. -/
def s1A : SState :=
  { store := { rows := [johnA], nextId := 2, clock := 2 },
    cache := { emptyCache with delLog := ["user:1"] } }

/-- The state after `remove s1 1`. -/
def s1R : SState :=
  { store := { rows := [{ john with deletedAt := some 1 }], nextId := 2, clock := 2 },
    cache := { emptyCache with delLog := ["user:1"] } }

/-- Create dto whose email duplicates `jane`'s. -/
def dupDto : CreateUserDto :=
  { firstName := "Dup", middleName := none, lastName := "User",
    email := "jane@example.com", password := "password789", phone := "+1234567892" }

/-- Create dto for a fresh user. -/
def createJaneDto : CreateUserDto :=
  { firstName := "Jane", middleName := some "M", lastName := "Smith",
    email := "jane@example.com", password := "password456", phone := "+1234567891" }

/-- The row created by `create s1 createJaneDto`. -/
def janeNew : User :=
  { id := 2, firstName := "Jane", middleName := some "M", lastName := "Smith",
    email := "jane@example.com", password := hashPassword "password456",
    phone := "+1234567891", isActive := true, createdAt := 1, updatedAt := 1,
    deletedAt := none }

/-- The state after `create s1 createJaneDto`. -/
def s1C : SState :=
  { store := { rows := [john, janeNew], nextId := 3, clock := 2 }, cache := emptyCache }

/-- Update dto carrying an empty-string email. -/
def emptyEmailDto : UpdateUserDto :=
  { firstName := none, middleName := none, lastName := none,
    email := some "", password := none, phone := none }

/-! ### Claims -/

/-- C1: for every record id present in the store, after
`update(id, partialFields)` succeeds, an immediately following
`findOne(id)` returns the post-update record: `update` always deletes
the point-lookup cache entry `user:<id>` after applying the merge, so no
stale pre-update value is ever served by a subsequent point read. -/
theorem C1_update_evicts_point_cache (s : SState) (id : Nat) (dto : UpdateUserDto)
    (u : User) (s' : SState) (hwf : StoreWf s.store)
    (h : update s id dto = (.ok u, s')) :
    cacheGetUser s'.cache (userKey id) = none ∧ (findOne s' id).1 = .ok u := by
  rcases update_cases s id dto with ⟨user, hf, heq⟩ | ⟨err, heq⟩
  · rw [heq] at h
    have hu : (saveRow s.store (applyDto user dto)).1 = u := by
      have hc := congrArg Prod.fst h
      simpa [applySave] using hc
    have hsc : s'.cache = cacheDel s.cache (userKey id) := by
      have hc := congrArg (fun x => x.2.cache) h
      simp only [applySave] at hc
      exact hc.symm
    have hss : s'.store = (saveRow s.store (applyDto user dto)).2 := by
      have hc := congrArg (fun x => x.2.store) h
      simp only [applySave] at hc
      exact hc.symm
    have hcnone : cacheGetUser s'.cache (userKey id) = none := by
      rw [hsc]
      exact cacheGetUser_cacheDel_self _ _
    have hfind2 : findOneBy s'.store id = some u := by
      rw [hss, ← hu]
      refine find?_map_update s.store.rows id user (applyDto user dto) _ hwf hf ?_ ?_ ?_
      · rw [applyDto_id]
        exact (findOneBy_some hf).1
      · show (saveRow s.store (applyDto user dto)).1.id = id
        rw [show (saveRow s.store (applyDto user dto)).1.id = (applyDto user dto).id from rfl,
          applyDto_id]
        exact (findOneBy_some hf).1
      · show isLive (saveRow s.store (applyDto user dto)).1 = true
        rw [show isLive (saveRow s.store (applyDto user dto)).1 = isLive user from rfl]
        exact (findOneBy_some hf).2.1
    refine ⟨hcnone, ?_⟩
    simp only [findOne, hcnone, hfind2]
  · rw [heq] at h
    exact absurd h (by simp)

/-- C1 witness instance on the one-row state `s1`. -/
theorem C1_witness :
    StoreWf s1.store ∧ update s1 1 dtoA = (.ok johnA, s1A) ∧
    (cacheGetUser s1A.cache (userKey 1) = none ∧ (findOne s1A 1).1 = .ok johnA) :=
  ⟨by decide, by decide,
   C1_update_evicts_point_cache s1 1 dtoA johnA s1A (by decide) (by decide)⟩

/-- C2 counterexample: on the one-row state `s1`, the first `remove(1)`
succeeds, but a second `remove(1)` is not an idempotent no-op: it fails
with `RecordNotFound(1)` (the existence check precedes the soft delete)
and performs no further cache eviction (its state, logs included, is
unchanged). -/
theorem C2_counterexample :
    (remove s1 1).1 = .ok () ∧
    (findOne (remove s1 1).2 1).1 = .error (.notFound 1) ∧
    (remove (remove s1 1).2 1).1 = .error (.notFound 1) ∧
    (remove (remove s1 1).2 1).2 = (remove s1 1).2 := by decide

/-- C2 (amended): after `remove(id)` succeeds, `findOne(id)` fails with
`RecordNotFound`, and a second `remove(id)` also fails with
`RecordNotFound`, leaving the state unchanged: the existence check runs
before the soft delete, so the zero-affected-rows branch and the repeated
point-cache eviction never occur. -/
theorem C2_remove_then_reads (s : SState) (id : Nat) (s' : SState)
    (h : remove s id = (.ok (), s')) :
    (findOne s' id).1 = .error (.notFound id) ∧
    remove s' id = (.error (.notFound id), s') := by
  cases hf : findOneBy s.store id with
  | none =>
    have hr : remove s id = (.error (.notFound id), s) := by simp only [remove, hf]
    rw [hr] at h
    exact absurd h (by simp)
  | some w =>
    have hss : s'.store = softDeleteRow s.store id := by
      have hc := congrArg (fun x => x.2.store) h
      simp only [remove, hf] at hc
      exact hc.symm
    have hsc : s'.cache = cacheDel s.cache (userKey id) := by
      have hc := congrArg (fun x => x.2.cache) h
      simp only [remove, hf] at hc
      exact hc.symm
    have hnone : findOneBy s'.store id = none := by
      rw [hss]
      exact findOneBy_softDeleteRow s.store id
    have hcn : cacheGetUser s'.cache (userKey id) = none := by
      rw [hsc]
      exact cacheGetUser_cacheDel_self _ _
    constructor
    · simp only [findOne, hcn, hnone]
    · simp only [remove, hnone]

/-- C2 witness instance: removing `john` from `s1` and reading again. -/
theorem C2_witness :
    remove s1 1 = (.ok (), s1R) ∧
    ((findOne s1R 1).1 = .error (.notFound 1) ∧
     remove s1R 1 = (.error (.notFound 1), s1R)) :=
  ⟨by decide, C2_remove_then_reads s1 1 s1R (by decide)⟩

/-- C3: a `create` whose email equals the email of an existing
non-deleted record fails with `DuplicateKey(email)` and performs no
further action: the returned state is exactly the input state (no row
inserted, no cache entry written or deleted, logs included). -/
theorem C3_create_duplicate_email_rejected (s : SState) (dto : CreateUserDto)
    (h : ∃ v ∈ s.store.rows, v.email = dto.email ∧ v.deletedAt = none) :
    create s dto = (.error (.duplicateEmail dto.email), s) := by
  obtain ⟨v, hv, he, hl⟩ := h
  have hs := findByEmail_isSome_of_mem hv he hl
  cases hfe : findByEmail s.store dto.email with
  | none =>
    rw [hfe] at hs
    simp at hs
  | some w => simp only [create, hfe]

/-- C3 witness instance: duplicating `jane`'s email on `s2`. -/
theorem C3_witness :
    jane ∈ s2.store.rows ∧ jane.email = dupDto.email ∧ jane.deletedAt = none ∧
    create s2 dupDto = (.error (.duplicateEmail dupDto.email), s2) :=
  ⟨by decide, by decide, by decide,
   C3_create_duplicate_email_rejected s2 dupDto ⟨jane, by decide, by decide, by decide⟩⟩

/-- C4: for every successful `create(fields)`, the persisted row stores
the hashed digest of the raw password (never the raw value: the digest
always differs from its input), and serialization of a record to callers
is independent of the password column (the digest is never exposed). -/
theorem C4_password_hashed_never_exposed (s : SState) (dto : CreateUserDto)
    (u : User) (s' : SState) (h : create s dto = (.ok u, s')) :
    s'.store.rows = s.store.rows ++ [u] ∧
    u.password = hashPassword dto.password ∧
    (∀ raw : String, hashPassword raw ≠ raw) ∧
    (∀ (v : User) (pw : String), serializeUser { v with password := pw } = serializeUser v) := by
  cases hfe : findByEmail s.store dto.email with
  | some w =>
    have hr : create s dto = (.error (.duplicateEmail dto.email), s) := by
      simp only [create, hfe]
    rw [hr] at h
    exact absurd h (by simp)
  | none =>
    have hu : (insertRow s.store dto).1 = u := by
      have hc := congrArg Prod.fst h
      simpa [create, hfe] using hc
    have hst : s'.store = (insertRow s.store dto).2 := by
      have hc := congrArg (fun x => x.2.store) h
      simp only [create, hfe] at hc
      exact hc.symm
    refine ⟨?_, ?_, ?_, ?_⟩
    · rw [hst, ← hu]
      rfl
    · rw [← hu]
      rfl
    · intro raw hcontra
      have hlen := congrArg String.length hcontra
      rw [hashPassword, String.length_append,
        show ("$2b$10$" : String).length = 7 from rfl] at hlen
      omega
    · intro v pw
      rfl

/-- C4 witness instance: creating `janeNew` on `s1`. -/
theorem C4_witness :
    create s1 createJaneDto = (.ok janeNew, s1C) ∧
    s1C.store.rows = s1.store.rows ++ [janeNew] ∧
    janeNew.password = hashPassword createJaneDto.password ∧
    hashPassword "password456" ≠ "password456" ∧
    serializeUser { john with password := "x" } = serializeUser john :=
  ⟨by decide,
   (C4_password_hashed_never_exposed s1 createJaneDto janeNew s1C (by decide)).1,
   (C4_password_hashed_never_exposed s1 createJaneDto janeNew s1C (by decide)).2.1,
   (C4_password_hashed_never_exposed s1 createJaneDto janeNew s1C (by decide)).2.2.1 "password456",
   (C4_password_hashed_never_exposed s1 createJaneDto janeNew s1C (by decide)).2.2.2 john "x"⟩

/-- C5: for an id with no non-deleted row (never assigned or
soft-deleted) — and hence, in any state the service itself can produce
(`PointCoherent`, preserved by every operation), no point-cache entry —
`findOne`, `update` and `remove` all fail with `RecordNotFound(id)` and
return the state unchanged (store, cache and logs untouched). -/
theorem C5_missing_id_ops_fail (s : SState) (id : Nat) (dto : UpdateUserDto)
    (hco : PointCoherent s) (hst : findOneBy s.store id = none) :
    findOne s id = (.error (.notFound id), s) ∧
    update s id dto = (.error (.notFound id), s) ∧
    remove s id = (.error (.notFound id), s) := by
  have hcn : cacheGetUser s.cache (userKey id) = none := hco id hst
  refine ⟨?_, ?_, ?_⟩
  · simp only [findOne, hcn, hst]
  · simp only [update, hst]
  · simp only [remove, hst]

/-- C5 witness instance: the unassigned id 99 on `s1`. -/
theorem C5_witness :
    findOneBy s1.store 99 = none ∧
    (findOne s1 99 = (.error (.notFound 99), s1) ∧
     update s1 99 dtoA = (.error (.notFound 99), s1) ∧
     remove s1 99 = (.error (.notFound 99), s1)) :=
  ⟨by decide,
   C5_missing_id_ops_fail s1 99 dtoA
     (fun i _ => by simp [s1, emptyCache, cacheGetUser, cacheLookup]) (by decide)⟩

/-- Update dto whose email duplicates `jane`'s. -/
def dupEmailDto : UpdateUserDto :=
  { firstName := none, middleName := none, lastName := none,
    email := some "jane@example.com", password := none, phone := none }

/-- The default listing parameters. -/
def pg1 : PaginationDto := { skip := 0, limit := 20, order := .asc }

/-- The default listing parameters with descending order. -/
def pgDesc : PaginationDto := { skip := 0, limit := 20, order := .desc }

/-- C6 counterexample: on a state where a different non-deleted record
holds the empty-string email, `update(1, {email: ""})` — an email that
differs from the record's current email and is held by a different
non-deleted record — does NOT raise `DuplicateKey`: the truthiness guard
skips the check and the merge succeeds. -/
theorem C6_counterexample :
    emptyEmailDto.email = some "" ∧
    ("" : String) ≠ john.email ∧
    (∃ v ∈ s3.store.rows, v.id ≠ john.id ∧ v.email = "" ∧ v.deletedAt = none) ∧
    findOneBy s3.store 1 = some john ∧
    (update s3 1 emptyEmailDto).1 ≠ .error (.duplicateEmail "") ∧
    (update s3 1 emptyEmailDto).1 = .ok { john with email := "", updatedAt := 2 } := by
  decide

/-- C6 (amended): `update(id, partialFields)` raises `DuplicateKey(email)`
exactly when partialFields includes a non-empty (truthy) email that
differs from the record's current email and a non-deleted record
(necessarily a different one) holds that email; the failure happens
before any mutation (the state is returned unchanged); and supplying the
record's own current email is never a conflict. -/
theorem C6_update_conflict_iff (s : SState) (id : Nat) (dto : UpdateUserDto)
    (user : User) (hfind : findOneBy s.store id = some user) :
    (∀ e, dto.email = some e →
      ((update s id dto).1 = .error (.duplicateEmail e) ↔
        e ≠ "" ∧ e ≠ user.email ∧
          ∃ v ∈ s.store.rows, v ≠ user ∧ v.email = e ∧ v.deletedAt = none)) ∧
    (∀ err, (update s id dto).1 = .error err → (update s id dto).2 = s) ∧
    (dto.email = some user.email → ∃ u', (update s id dto).1 = .ok u') := by
  refine ⟨?_, ?_, ?_⟩
  · intro e he
    by_cases h0 : e = ""
    · subst h0
      have hr : update s id dto = applySave s id user dto := by
        simp only [update, hfind, he]
        rw [if_neg (by simp)]
      rw [hr]
      constructor
      · intro hcontra
        rw [applySave_fst] at hcontra
        exact absurd hcontra (by simp)
      · rintro ⟨hne, -, -⟩
        exact absurd rfl hne
    · by_cases h1 : e = user.email
      · subst h1
        have hr : update s id dto = applySave s id user dto := by
          simp only [update, hfind, he]
          rw [if_neg (by simp)]
        rw [hr]
        constructor
        · intro hcontra
          rw [applySave_fst] at hcontra
          exact absurd hcontra (by simp)
        · rintro ⟨-, hne, -⟩
          exact absurd rfl hne
      · have hcond : (e != "" && e != user.email) = true := by
          rw [Bool.and_eq_true, bne_iff_ne, bne_iff_ne]
          exact ⟨h0, h1⟩
        cases hfe : findByEmail s.store e with
        | some w =>
          have hr : update s id dto = (.error (.duplicateEmail e), s) := by
            simp only [update, hfind, he, if_pos hcond, hfe]
          rw [hr]
          constructor
          · intro _
            obtain ⟨hwe, hwl, hwm⟩ := findByEmail_some hfe
            refine ⟨h0, h1, w, hwm, ?_, hwe, ?_⟩
            · intro hq
              exact h1 ((hq ▸ hwe : user.email = e)).symm
            · simpa [isLive, Option.isNone_iff_eq_none] using hwl
          · intro _
            rfl
        | none =>
          have hr : update s id dto = applySave s id user dto := by
            simp only [update, hfind, he, if_pos hcond, hfe]
          rw [hr]
          constructor
          · intro hcontra
            rw [applySave_fst] at hcontra
            exact absurd hcontra (by simp)
          · rintro ⟨-, -, v, hvm, -, hve, hvl⟩
            have hsome := findByEmail_isSome_of_mem hvm hve hvl
            rw [hfe] at hsome
            simp at hsome
  · intro err herr
    rcases update_cases s id dto with ⟨user', hf', heq⟩ | ⟨err', heq⟩
    · rw [heq] at herr
      rw [applySave_fst] at herr
      exact absurd herr (by simp)
    · rw [heq]
  · intro he
    have hr : update s id dto = applySave s id user dto := by
      simp only [update, hfind, he]
      rw [if_neg (by simp)]
    rw [hr]
    exact ⟨_, applySave_fst s id user dto⟩

/-- C6 witness instance: updating `john`'s email to `jane`'s on `s2`. -/
theorem C6_witness :
    findOneBy s2.store 1 = some john ∧
    (update s2 1 dupEmailDto).1 = .error (.duplicateEmail "jane@example.com") :=
  ⟨by decide,
   ((C6_update_conflict_iff s2 1 dupEmailDto john (by decide)).1 "jane@example.com" rfl).mpr
     ⟨by decide, by decide, jane, by decide, by decide, by decide, by decide⟩⟩

/-- C7: `findAll` computes the page key; on a hit it returns the cached
page verbatim with the whole state (store included) untouched; on a miss
it returns the store's page, stores it under the page key with the
configured default TTL, and touches nothing else. -/
theorem C7_findAll_cache_protocol (s : SState) (p : PaginationDto) :
    (∀ us, cacheGetPage s.cache (pageKey p) = some us → findAll s p = (us, s)) ∧
    (cacheGetPage s.cache (pageKey p) = none →
      (findAll s p).1 = findPage s.store p.skip p.limit p.order ∧
      (findAll s p).2.store = s.store ∧
      (findAll s p).2.cache =
        cacheSet s.cache (pageKey p) (.page (findPage s.store p.skip p.limit p.order)) ∧
      cacheLookup (findAll s p).2.cache (pageKey p) =
        some (.page (findPage s.store p.skip p.limit p.order), s.cache.defaultTtl)) := by
  constructor
  · intro us h
    simp only [findAll, h]
  · intro h
    have hca : (findAll s p).2.cache =
        cacheSet s.cache (pageKey p) (.page (findPage s.store p.skip p.limit p.order)) := by
      simp only [findAll, h]
    refine ⟨by simp only [findAll, h], by simp only [findAll, h], hca, ?_⟩
    rw [hca]
    exact cacheLookup_cacheSet_self s.cache (pageKey p) _

/-- C7 witness instance: a cache miss on `s1` with the default page. -/
theorem C7_witness :
    cacheGetPage s1.cache (pageKey pg1) = none ∧
    ((findAll s1 pg1).1 = findPage s1.store pg1.skip pg1.limit pg1.order ∧
     (findAll s1 pg1).2.store = s1.store ∧
     (findAll s1 pg1).2.cache =
       cacheSet s1.cache (pageKey pg1) (.page (findPage s1.store pg1.skip pg1.limit pg1.order)) ∧
     cacheLookup (findAll s1 pg1).2.cache (pageKey pg1) =
       some (.page (findPage s1.store pg1.skip pg1.limit pg1.order), s1.cache.defaultTtl)) :=
  ⟨by decide, (C7_findAll_cache_protocol s1 pg1).2 (by decide)⟩

/-- C8: the page-key function is a deterministic injection on
`(skip, limit, order)`, and populating one page entry leaves every other
page entry's cached value unchanged. -/
theorem C8_page_keys_injective_independent (p q : PaginationDto) :
    (pageKey p = pageKey q → p = q) ∧
    (p ≠ q → ∀ s : SState,
      cacheGetPage (findAll s p).2.cache (pageKey q) = cacheGetPage s.cache (pageKey q)) := by
  constructor
  · exact pageKey_inj
  · intro hne s
    cases h : cacheGetPage s.cache (pageKey p) with
    | some us =>
      have he : (findAll s p).2 = s := by simp only [findAll, h]
      rw [he]
    | none =>
      have hca : (findAll s p).2.cache =
          cacheSet s.cache (pageKey p) (.page (findPage s.store p.skip p.limit p.order)) := by
        simp only [findAll, h]
      rw [hca]
      unfold cacheGetPage
      rw [cacheLookup_cacheSet_ne s.cache _ (fun hk => hne (pageKey_inj hk).symm)]

/-- C8 witness instance: asc and desc listings of the same page are
independent entries. -/
theorem C8_witness :
    pg1 ≠ pgDesc ∧
    cacheGetPage (findAll s1 pg1).2.cache (pageKey pgDesc) =
      cacheGetPage s1.cache (pageKey pgDesc) :=
  ⟨by decide, (C8_page_keys_injective_independent pg1 pgDesc).2 (by decide) s1⟩

/-- C9: no write operation ever deletes a page-listing key: the deletion
log of `create` is unchanged in all cases, and `update` / `remove` append
exactly the point key `user:<id>` on success (and nothing on failure),
a key that is never equal to any page key. -/
theorem C9_writes_delete_only_point_key (s : SState) (id : Nat)
    (cdto : CreateUserDto) (udto : UpdateUserDto) :
    (create s cdto).2.cache.delLog = s.cache.delLog ∧
    ((∃ u, (update s id udto).1 = .ok u) →
      (update s id udto).2.cache.delLog = s.cache.delLog ++ [userKey id]) ∧
    ((∃ err, (update s id udto).1 = .error err) →
      (update s id udto).2.cache.delLog = s.cache.delLog) ∧
    ((remove s id).1 = .ok () →
      (remove s id).2.cache.delLog = s.cache.delLog ++ [userKey id]) ∧
    ((∃ err, (remove s id).1 = .error err) →
      (remove s id).2.cache.delLog = s.cache.delLog) ∧
    (∀ p : PaginationDto, userKey id ≠ pageKey p) := by
  refine ⟨?_, ?_, ?_, ?_, ?_, userKey_ne_pageKey id⟩
  · cases hc : findByEmail s.store cdto.email with
    | some w => simp only [create, hc]
    | none => simp only [create, hc]
  · rintro ⟨u, hu⟩
    rcases update_cases s id udto with ⟨user, hf, heq⟩ | ⟨err, heq⟩
    · rw [heq]
      rfl
    · rw [heq] at hu
      exact absurd hu (by simp)
  · rintro ⟨err, herr⟩
    rcases update_cases s id udto with ⟨user, hf, heq⟩ | ⟨err', heq⟩
    · rw [heq] at herr
      rw [applySave_fst] at herr
      exact absurd herr (by simp)
    · rw [heq]
  · intro hok
    cases hf : findOneBy s.store id with
    | none =>
      have hr : (remove s id).1 = .error (.notFound id) := by simp only [remove, hf]
      rw [hr] at hok
      exact absurd hok (by simp)
    | some w => simp only [remove, hf, cacheDel]
  · rintro ⟨err, herr⟩
    cases hf : findOneBy s.store id with
    | none => simp only [remove, hf]
    | some w =>
      have hr : (remove s id).1 = .ok () := by simp only [remove, hf]
      rw [hr] at herr
      exact absurd herr (by simp)

/-- C9 witness instance: a successful create, update and remove on `s1`. -/
theorem C9_witness :
    (create s1 createJaneDto).2.cache.delLog = s1.cache.delLog ∧
    (update s1 1 dtoA).2.cache.delLog = s1.cache.delLog ++ [userKey 1] ∧
    (remove s1 1).2.cache.delLog = s1.cache.delLog ++ [userKey 1] ∧
    userKey 1 ≠ pageKey pg1 :=
  ⟨(C9_writes_delete_only_point_key s1 1 createJaneDto dtoA).1,
   (C9_writes_delete_only_point_key s1 1 createJaneDto dtoA).2.1 ⟨johnA, by decide⟩,
   (C9_writes_delete_only_point_key s1 1 createJaneDto dtoA).2.2.2.1 (by decide),
   (C9_writes_delete_only_point_key s1 1 createJaneDto dtoA).2.2.2.2.2 pg1⟩

/-- C10: `update` runs the email-uniqueness check only when the supplied
email is a truthy string: with `partialFields.email = ""` the check is
skipped — whatever the store holds — and the merge, empty email
included, is applied and saved. -/
theorem C10_empty_email_truthiness (s : SState) (id : Nat) (dto : UpdateUserDto)
    (user : User) (hfind : findOneBy s.store id = some user)
    (he : dto.email = some "") :
    (update s id dto).1 = .ok (saveRow s.store (applyDto user dto)).1 ∧
    (applyDto user dto).email = "" ∧
    (update s id dto).2.store = (saveRow s.store (applyDto user dto)).2 := by
  have hr : update s id dto = applySave s id user dto := by
    simp only [update, hfind, he]
    rw [if_neg (by simp)]
  refine ⟨?_, ?_, ?_⟩
  · rw [hr, applySave_fst]
  · simp [applyDto, he]
  · rw [hr]
    rfl

/-- C10 witness instance: on `s3` a different live row holds the empty
email, yet the update with an empty email succeeds and merges it. -/
theorem C10_witness :
    findOneBy s3.store 1 = some john ∧
    (findByEmail s3.store "").isSome ∧
    ((update s3 1 emptyEmailDto).1 = .ok (saveRow s3.store (applyDto john emptyEmailDto)).1 ∧
     (applyDto john emptyEmailDto).email = "" ∧
     (update s3 1 emptyEmailDto).2.store = (saveRow s3.store (applyDto john emptyEmailDto)).2) :=
  ⟨by decide, by decide,
   C10_empty_email_truthiness s3 1 emptyEmailDto john (by decide) rfl⟩

end UserMs
